import Mathlib

/-!
Verification of the `pfds` persistent data structure library.

Each Rust source file is shallowly embedded as Lean definitions:
`list.rs`, `queue.rs`, `map.rs`, `set.rs`, `hashmap.rs`, `tree.rs`.
Machine integers (`usize`) are modelled as `Nat`; Rust panics and
`assert!` failures are modelled as `Option.none`; loops are modelled by
tail-recursive helpers or, where the source recursion is not structural,
by an explicit fuel parameter (`none` = the fuel ran out, i.e. the
source would still be running).
-/

namespace PFDS

/-! ## list.rs -/

/-- `ListNode<E>`: `Nil` or `Node(len, elem, tail)`; `len` is the cached length. -/
inductive ListNode (E : Type) where
  | nil : ListNode E
  | node (s : Nat) (e : E) (tail : ListNode E) : ListNode E
deriving DecidableEq, Repr

namespace ListNode

/-- `fn len`: returns the cached length (0 for `Nil`). -/
def len : ListNode E → Nat
  | .nil => 0
  | .node s _ _ => s

/-- `fn push`: one new node whose tail shares the old list. -/
def push (l : ListNode E) (e : E) : ListNode E :=
  match l with
  | .nil => .node 1 e l
  | .node s _ _ => .node (s + 1) e l

/-- `fn pop`: the shared tail; panic (`none`) on `Nil`. -/
def pop : ListNode E → Option (ListNode E)
  | .nil => none
  | .node _ _ t => some t

/-- `fn top`: the head element; panic (`none`) on `Nil`. -/
def top : ListNode E → Option E
  | .nil => none
  | .node _ e _ => some e

/-- `fn to_vec`: elements top-first. -/
def toVec : ListNode E → List E
  | .nil => []
  | .node _ e t => e :: toVec t

/-- The loop body of `fn rev`: push each visited element onto the accumulator. -/
def revGo : ListNode E → ListNode E → ListNode E
  | .nil, n => n
  | .node _ e t, n => revGo t (n.push e)

/-- `fn rev`: a single reversal pass. -/
def rev (l : ListNode E) : ListNode E := revGo l .nil

/-- The cached-length invariant: every cached `len` equals the true length.
Holds for every list reachable through the public operations. -/
def lenOK : ListNode E → Bool
  | .nil => true
  | .node s _ t => s == t.len + 1 && lenOK t

theorem lenOK_push (l : ListNode E) (e : E) (h : lenOK l) : lenOK (l.push e) := by
  cases l <;> simp_all [push, lenOK, len]

theorem len_eq_toVec_length (l : ListNode E) (h : lenOK l) :
    l.len = l.toVec.length := by
  induction l with
  | nil => rfl
  | node s e t ih =>
    simp only [lenOK, Bool.and_eq_true, beq_iff_eq] at h
    simp [len, toVec, ← ih h.2, h.1]

theorem toVec_push (l : ListNode E) (e : E) : (l.push e).toVec = e :: l.toVec := by
  cases l <;> rfl

theorem lenOK_revGo (l acc : ListNode E) (h : lenOK acc) : lenOK (revGo l acc) := by
  induction l generalizing acc with
  | nil => exact h
  | node s e t ih => exact ih _ (lenOK_push acc e h)

theorem toVec_revGo (l acc : ListNode E) :
    (revGo l acc).toVec = l.toVec.reverse ++ acc.toVec := by
  induction l generalizing acc with
  | nil => simp [revGo, toVec]
  | node s e t ih => simp [revGo, toVec, ih, toVec_push]

theorem lenOK_rev (l : ListNode E) : lenOK l.rev := lenOK_revGo l .nil rfl

theorem toVec_rev (l : ListNode E) : l.rev.toVec = l.toVec.reverse := by
  simp [rev, toVec_revGo, toVec]

theorem pop_eq_none_iff (l : ListNode E) : l.pop = none ↔ l = .nil := by
  cases l <;> simp [pop]

theorem top_eq_none_iff (l : ListNode E) : l.top = none ↔ l = .nil := by
  cases l <;> simp [top]

theorem len_eq_zero_iff (l : ListNode E) (h : lenOK l) : l.len = 0 ↔ l = .nil := by
  cases l with
  | nil => simp [len]
  | node s e t =>
    simp only [lenOK, Bool.and_eq_true, beq_iff_eq] at h
    simp [len, h.1]

end ListNode

/-! ## queue.rs -/

/-- `QueueNode<E>`: `Empty` or `Node { back, front }`. -/
inductive QueueNode (E : Type) where
  | empty : QueueNode E
  | node (back front : ListNode E) : QueueNode E
deriving DecidableEq, Repr

namespace QueueNode

/-- `fn node`: the smart constructor collapsing the both-empty case. -/
def mkNode (back front : ListNode E) : QueueNode E :=
  match back.len, front.len with
  | 0, 0 => .empty
  | _, _ => .node back front

/-- `fn enqueue`: push onto `back`. -/
def enqueue (q : QueueNode E) (e : E) : QueueNode E :=
  match q with
  | .empty => mkNode (ListNode.nil.push e) .nil
  | .node b f => mkNode (b.push e) f

/-- `fn dequeue`: panic (`none`) on empty; reverse `back` when `front` is exhausted. -/
def dequeue (q : QueueNode E) : Option (E × QueueNode E) :=
  match q with
  | .empty => none
  | .node b f =>
    match b.len, f.len with
    | 0, 0 => none  -- unreachable!() in the source
    | _ + 1, 0 =>
      let l := b.rev
      match l.pop, l.top with
      | some p, some t => some (t, mkNode .nil p)
      | _, _ => none  -- panic inside pop/top
    | _, _ + 1 =>
      match f.pop, f.top with
      | some p, some t => some (t, mkNode b p)
      | _, _ => none  -- panic inside pop/top

/-- `fn len`: sum of the two cached lengths. -/
def qlen (q : QueueNode E) : Nat :=
  match q with
  | .empty => 0
  | .node b f => b.len + f.len

/-- The loop of `fn to_vec`: dequeue until `Empty`.  The source loop has no
fuel; `none` means the loop would panic (dequeue of a malformed node). -/
def toVecF : Nat → QueueNode E → Option (List E)
  | _, .empty => some []
  | 0, _ => none
  | fuel + 1, q => do
    let (e, nn) ← dequeue q
    let v ← toVecF fuel nn
    pure (e :: v)

/-- `fn to_vec` at the fuel sufficient for every well-formed queue. -/
def toVec (q : QueueNode E) : Option (List E) := toVecF (qlen q) q

/-- The back list of the queue representation (`Nil` for `Empty`). -/
def backL : QueueNode E → ListNode E
  | .empty => .nil
  | .node b _ => b

/-- The front list of the queue representation (`Nil` for `Empty`). -/
def frontL : QueueNode E → ListNode E
  | .empty => .nil
  | .node _ f => f

/-- Structural well-formedness: cached lengths are correct and a `Node`
never has both lists empty. -/
def WF (q : QueueNode E) : Prop :=
  match q with
  | .empty => True
  | .node b f => b.lenOK = true ∧ f.lenOK = true ∧ (b.len ≠ 0 ∨ f.len ≠ 0)

/-- The abstract content: `front` (oldest first) then `back` reversed. -/
def absQ (q : QueueNode E) : List E :=
  match q with
  | .empty => []
  | .node b f => f.toVec ++ b.toVec.reverse

/-- Queues reachable from the empty queue by `enqueue` and `dequeue`. -/
inductive Reachable : QueueNode E → Prop where
  | empty : Reachable .empty
  | enq {q : QueueNode E} (e : E) : Reachable q → Reachable (enqueue q e)
  | deq {q q' : QueueNode E} {e : E} :
      Reachable q → dequeue q = some (e, q') → Reachable q'

theorem WF_mkNode (b f : ListNode E) (hb : b.lenOK = true) (hf : f.lenOK = true) :
    WF (mkNode b f) := by
  unfold mkNode
  rcases hbl : b.len with _ | n <;> rcases hfl : f.len with _ | m <;>
    simp_all [WF]

theorem WF_enqueue (q : QueueNode E) (e : E) (h : WF q) : WF (enqueue q e) := by
  cases q with
  | empty => exact WF_mkNode _ _ (ListNode.lenOK_push .nil e (by rfl)) rfl
  | node b f =>
    obtain ⟨hb, hf, _⟩ := h
    exact WF_mkNode _ _ (ListNode.lenOK_push _ _ hb) hf

theorem WF_dequeue (q q' : QueueNode E) (e : E) (h : WF q)
    (hd : dequeue q = some (e, q')) : WF q' := by
  cases q with
  | empty => simp [dequeue] at hd
  | node b f =>
    obtain ⟨hb, hf, _⟩ := h
    unfold dequeue at hd
    rcases hbl : b.len with _ | n <;> rcases hfl : f.len with _ | m <;>
        simp only [hbl, hfl] at hd
    · exact absurd hd (by simp)
    · -- front non-empty: pop and top of f
      have hfne : f ≠ .nil := by
        intro h'; subst h'; simp [ListNode.len] at hfl
      cases f with
      | nil => exact absurd rfl hfne
      | node s e' t =>
        simp only [ListNode.pop, ListNode.top, Option.some.injEq, Prod.mk.injEq] at hd
        obtain ⟨_, hq⟩ := hd
        subst hq
        simp only [ListNode.lenOK, Bool.and_eq_true, beq_iff_eq] at hf
        exact WF_mkNode _ _ hb hf.2
    · -- front empty, back non-empty: reverse back
      have hbne : b.rev ≠ .nil := by
        intro h'
        have := ListNode.toVec_rev b
        rw [h'] at this
        have hlen := ListNode.len_eq_toVec_length b hb
        simp [ListNode.toVec] at this
        rw [this] at hlen
        simp [hbl] at hlen
      cases hr : b.rev with
      | nil => exact absurd hr hbne
      | node s e' t =>
        rw [hr] at hd
        simp only [ListNode.pop, ListNode.top, Option.some.injEq, Prod.mk.injEq] at hd
        obtain ⟨_, hq⟩ := hd
        subst hq
        have := ListNode.lenOK_rev b
        rw [hr] at this
        simp only [ListNode.lenOK, Bool.and_eq_true, beq_iff_eq] at this
        exact WF_mkNode _ _ rfl this.2
    · -- both non-empty: pop and top of f
      cases f with
      | nil => simp [ListNode.len] at hfl
      | node s e' t =>
        simp only [ListNode.pop, ListNode.top, Option.some.injEq, Prod.mk.injEq] at hd
        obtain ⟨_, hq⟩ := hd
        subst hq
        simp only [ListNode.lenOK, Bool.and_eq_true, beq_iff_eq] at hf
        exact WF_mkNode _ _ hb hf.2

theorem WF_of_reachable (q : QueueNode E) (h : Reachable q) : WF q := by
  induction h with
  | empty => trivial
  | enq e _ ih => exact WF_enqueue _ e ih
  | deq _ hd ih => exact WF_dequeue _ _ _ ih hd

theorem absQ_mkNode (b f : ListNode E) (hb : b.lenOK = true) (hf : f.lenOK = true) :
    absQ (mkNode b f) = f.toVec ++ b.toVec.reverse := by
  unfold mkNode
  rcases hbl : b.len with _ | n <;> rcases hfl : f.len with _ | m
  · have hb0 := (ListNode.len_eq_zero_iff b hb).1 hbl
    have hf0 := (ListNode.len_eq_zero_iff f hf).1 hfl
    subst hb0; subst hf0
    simp [absQ, ListNode.toVec]
  all_goals simp [absQ]

theorem absQ_enqueue (q : QueueNode E) (e : E) (hq : WF q) :
    absQ (enqueue q e) = absQ q ++ [e] := by
  cases q with
  | empty =>
    simp [enqueue, mkNode, absQ, ListNode.push, ListNode.len, ListNode.toVec]
  | node b f =>
    obtain ⟨hb, hf, _⟩ := hq
    rw [enqueue, absQ_mkNode _ _ (ListNode.lenOK_push _ _ hb) hf,
      ListNode.toVec_push]
    simp [absQ]

theorem dequeue_spec (q : QueueNode E) (e : E) (rest : List E) (hq : WF q)
    (habs : absQ q = e :: rest) :
    ∃ q', dequeue q = some (e, q') ∧ absQ q' = rest := by
  cases q with
  | empty => simp [absQ] at habs
  | node b f =>
    obtain ⟨hb, hf, hne⟩ := hq
    rcases hbl : b.len with _ | n <;> rcases hfl : f.len with _ | m
    · rcases hne with h | h
      · exact absurd hbl h
      · exact absurd hfl h
    · -- front non-empty
      cases f with
      | nil => simp [ListNode.len] at hfl
      | node s e' t =>
        simp only [ListNode.lenOK, Bool.and_eq_true, beq_iff_eq] at hf
        obtain ⟨hs, hft⟩ := hf
        simp only [absQ, ListNode.toVec, List.cons_append, List.cons.injEq] at habs
        refine ⟨mkNode b t, ?_, ?_⟩
        · subst hs
          simp only [dequeue, ListNode.len, hbl, ListNode.pop, ListNode.top, habs.1]
        · rw [absQ_mkNode _ _ hb hft, habs.2]
    · -- front empty, back non-empty: reverse back
      have hf0 := (ListNode.len_eq_zero_iff f hf).1 hfl
      subst hf0
      have hrv := ListNode.toVec_rev b
      cases hr : b.rev with
      | nil =>
        rw [hr] at hrv
        have hlen := ListNode.len_eq_toVec_length b hb
        simp [ListNode.toVec] at hrv
        rw [hrv] at hlen
        simp [hbl] at hlen
      | node s e' t =>
        have hwl := ListNode.lenOK_rev b
        rw [hr] at hwl hrv
        simp only [ListNode.lenOK, Bool.and_eq_true, beq_iff_eq] at hwl
        simp only [absQ, ListNode.toVec, List.nil_append] at habs
        rw [habs] at hrv
        simp only [ListNode.toVec] at hrv
        injection hrv with he ht
        refine ⟨mkNode .nil t, ?_, ?_⟩
        · cases b with
          | nil => simp [ListNode.len] at hbl
          | node sb eb tb =>
            simp only [ListNode.len] at hbl
            subst hbl
            simp only [dequeue, ListNode.len, hr, ListNode.pop, ListNode.top, he]
        · rw [absQ_mkNode .nil t (by rfl) hwl.2, ht]
          simp [ListNode.toVec]
    · -- both non-empty
      cases f with
      | nil => simp [ListNode.len] at hfl
      | node s e' t =>
        simp only [ListNode.lenOK, Bool.and_eq_true, beq_iff_eq] at hf
        obtain ⟨hs, hft⟩ := hf
        simp only [absQ, ListNode.toVec, List.cons_append, List.cons.injEq] at habs
        refine ⟨mkNode b t, ?_, ?_⟩
        · subst hs
          simp only [dequeue, ListNode.len, hbl, ListNode.pop, ListNode.top, habs.1]
        · rw [absQ_mkNode _ _ hb hft, habs.2]

theorem qlen_eq_absQ_length (q : QueueNode E) (hq : WF q) :
    qlen q = (absQ q).length := by
  cases q with
  | empty => rfl
  | node b f =>
    obtain ⟨hb, hf, _⟩ := hq
    simp [qlen, absQ, ListNode.len_eq_toVec_length b hb,
      ListNode.len_eq_toVec_length f hf, Nat.add_comm]

theorem toVecF_spec (n : Nat) (q : QueueNode E) (hq : WF q) (hn : qlen q ≤ n) :
    toVecF n q = some (absQ q) := by
  induction n generalizing q with
  | zero =>
    cases q with
    | empty => rfl
    | node b f =>
      obtain ⟨hb, hf, hne⟩ := hq
      simp only [qlen, Nat.le_zero, Nat.add_eq_zero] at hn
      exact absurd hn (by tauto)
  | succ n ih =>
    cases q with
    | empty => rfl
    | node b f =>
      have hlen : qlen (QueueNode.node b f) = (absQ (QueueNode.node b f)).length :=
        qlen_eq_absQ_length _ hq
      have hne : absQ (QueueNode.node b f) ≠ [] := by
        intro h0
        obtain ⟨hb, hf, hor⟩ := hq
        rw [h0] at hlen
        simp only [List.length_nil, qlen, Nat.add_eq_zero] at hlen
        exact absurd hlen (by tauto)
      obtain ⟨e, rest, habs⟩ := List.exists_cons_of_ne_nil hne
      obtain ⟨q', hdq, habs'⟩ := dequeue_spec _ e rest hq habs
      have hwf' := WF_dequeue _ _ _ hq hdq
      have hlen' : qlen q' ≤ n := by
        rw [qlen_eq_absQ_length _ hwf', habs']
        rw [habs] at hlen
        simp only [List.length_cons] at hlen
        omega
      simp only [toVecF, hdq, Option.bind_eq_bind, Option.some_bind,
        ih q' hwf' hlen', habs, habs', pure]

theorem toVec_spec (q : QueueNode E) (hq : WF q) : toVec q = some (absQ q) :=
  toVecF_spec _ q hq (Nat.le_refl _)

end QueueNode

/-- C6 counterexample input: the queue after a single enqueue. -/
def q6 : QueueNode Nat := QueueNode.enqueue .empty 1

/-- C6: the claim "if the front list is empty then the back list is also
empty (the queue is logically empty)" is false: after one enqueue the front
list is empty while the back list is not, and the queue is non-empty. -/
theorem c6_counterexample :
    ¬((QueueNode.frontL q6).len = 0 → (QueueNode.backL q6).len = 0) ∧
      (QueueNode.frontL q6).len = 0 ∧ (QueueNode.backL q6).len = 1 ∧
      QueueNode.qlen q6 ≠ 0 := by
  decide

/-- C6 (amended): for every Queue reachable from the empty queue by enqueue
and dequeue, the front and back lists are both empty only when the queue is
the `Empty` representation; a `Node` never has both lists empty (so the
dequeue reversal never reverses an empty back). A front-empty, back-nonempty
`Node` is permitted and reachable. -/
theorem c6_node_never_both_empty (E : Type) (q : QueueNode E)
    (h : QueueNode.Reachable q) (b f : ListNode E)
    (heq : q = QueueNode.node b f) : ¬(b.len = 0 ∧ f.len = 0) := by
  have hwf := QueueNode.WF_of_reachable q h
  subst heq
  obtain ⟨_, _, hor⟩ := hwf
  tauto

/-- C6 witness: the invariant holds at the queue reached by one enqueue. -/
theorem c6_node_never_both_empty_witness :
    ¬((ListNode.node 1 1 .nil : ListNode Nat).len = 0 ∧
      (ListNode.nil : ListNode Nat).len = 0) :=
  c6_node_never_both_empty Nat q6
    (QueueNode.Reachable.enq 1 QueueNode.Reachable.empty)
    (ListNode.node 1 1 .nil) .nil rfl

/-- C8: FIFO correctness of the queue.  For every reachable queue: `to_vec`
returns exactly the abstract content (front, then back reversed) —  by the
other two conjuncts this is the enqueue order of the remaining elements —
`enqueue` appends to that sequence, and `dequeue` returns the oldest
element together with the queue holding the rest. -/
theorem c8_queue_fifo (E : Type) (q : QueueNode E) (h : QueueNode.Reachable q) :
    QueueNode.toVec q = some (QueueNode.absQ q) ∧
    (∀ e, QueueNode.absQ (QueueNode.enqueue q e) = QueueNode.absQ q ++ [e]) ∧
    (∀ e rest, QueueNode.absQ q = e :: rest →
      ∃ q', QueueNode.dequeue q = some (e, q') ∧ QueueNode.absQ q' = rest) := by
  have hwf := QueueNode.WF_of_reachable q h
  exact ⟨QueueNode.toVec_spec q hwf,
    fun e => QueueNode.absQ_enqueue q e hwf,
    fun e rest habs => QueueNode.dequeue_spec q e rest hwf habs⟩

/-- C8 witness: evaluated on the queue `[1, 2]` built by two enqueues. -/
theorem c8_queue_fifo_witness :
    QueueNode.toVec (QueueNode.enqueue (QueueNode.enqueue .empty 1) 2) =
      some (QueueNode.absQ (QueueNode.enqueue (QueueNode.enqueue .empty 1) 2)) ∧
    QueueNode.absQ
        (QueueNode.enqueue (QueueNode.enqueue (QueueNode.enqueue .empty 1) 2) 3) =
      QueueNode.absQ (QueueNode.enqueue (QueueNode.enqueue .empty 1) 2) ++ [3] ∧
    ∃ q', QueueNode.dequeue (QueueNode.enqueue (QueueNode.enqueue .empty 1) 2) =
        some (1, q') ∧ QueueNode.absQ q' = [2] := by
  obtain ⟨h1, h2, h3⟩ := c8_queue_fifo Nat _
    (QueueNode.Reachable.enq 2 (QueueNode.Reachable.enq 1 QueueNode.Reachable.empty))
  exact ⟨h1, h2 3, h3 1 [2] (by decide)⟩

/-- C9: `pop`, `top` and `dequeue` fail (the source panics with the
EmptyContainer message) exactly when the container's `len` is 0, and succeed
whenever `len > 0` — for well-formed containers (cached lengths correct, and
a queue `Node` never has both lists empty). -/
theorem c9_empty_errors (E : Type) (l : ListNode E) (q : QueueNode E)
    (hl : l.lenOK = true) (hq : QueueNode.WF q) :
    (l.pop = none ↔ l.len = 0) ∧ (l.top = none ↔ l.len = 0) ∧
      (QueueNode.dequeue q = none ↔ QueueNode.qlen q = 0) := by
  refine ⟨?_, ?_, ?_⟩
  · rw [ListNode.pop_eq_none_iff, ListNode.len_eq_zero_iff l hl]
  · rw [ListNode.top_eq_none_iff, ListNode.len_eq_zero_iff l hl]
  · cases q with
    | empty => simp [QueueNode.dequeue, QueueNode.qlen]
    | node b f =>
      have hlen0 : QueueNode.qlen (QueueNode.node b f) ≠ 0 := by
        obtain ⟨_, _, hor⟩ := hq
        simp only [QueueNode.qlen, Nat.add_eq_zero]
        rcases hor with h | h <;> omega
      have hne : QueueNode.absQ (QueueNode.node b f) ≠ [] := by
        intro h0
        apply hlen0
        rw [QueueNode.qlen_eq_absQ_length _ hq, h0]
        rfl
      obtain ⟨e, rest, habs⟩ := List.exists_cons_of_ne_nil hne
      obtain ⟨q', hdq, _⟩ := QueueNode.dequeue_spec _ e rest hq habs
      simp [hdq, hlen0]

/-- C9 witness: evaluated on the one-element list and one-element queue. -/
theorem c9_empty_errors_witness :
    ((ListNode.nil.push 1 : ListNode Nat).pop = none ↔
      (ListNode.nil.push 1 : ListNode Nat).len = 0) ∧
    ((ListNode.nil.push 1 : ListNode Nat).top = none ↔
      (ListNode.nil.push 1 : ListNode Nat).len = 0) ∧
    (QueueNode.dequeue q6 = none ↔ QueueNode.qlen q6 = 0) :=
  c9_empty_errors Nat (ListNode.nil.push 1) q6 (by decide)
    ⟨by decide, by decide, Or.inl (by decide)⟩


/-! ## map.rs -/

/-- `MapNode<K, V>`: `Empty`, `One(k, v)`, or `Node(h, l, k, v, r)` with cached
height `h`. -/
inductive MapNode (K V : Type) where
  | empty : MapNode K V
  | one (k : K) (v : V) : MapNode K V
  | node (h : Nat) (l : MapNode K V) (k : K) (v : V) (r : MapNode K V) : MapNode K V
deriving DecidableEq, Repr

namespace MapNode

variable {K V : Type}

/-- `fn height`: the cached height (0 for `Empty`, 1 for `One`). -/
def height : MapNode K V → Nat
  | .empty => 0
  | .one _ _ => 1
  | .node h _ _ _ _ => h

/-- `fn make`: `One` when both sides are empty, else `Node` with recomputed
cached height. -/
def make (l : MapNode K V) (k : K) (v : V) (r : MapNode K V) : MapNode K V :=
  match l, r with
  | .empty, .empty => .one k v
  | _, _ => .node (1 + max l.height r.height) l k v r

/-- `fn rebalance`: single or double rotation when the cached heights differ
by more than 2.  The source's `unreachable!()` arms are modelled as `Empty`;
they cannot fire when the cached heights are correct. -/
def rebalance (t1 : MapNode K V) (k : K) (v : V) (t2 : MapNode K V) : MapNode K V :=
  let t1h := t1.height
  let t2h := t2.height
  if t2h > t1h + 2 then
    match t2 with
    | .node _ t2l t2k t2v t2r =>
      if t2l.height > t1h + 1 then
        match t2l with
        | .node _ t2ll t2lk t2lv t2lr =>
          make (make t1 k v t2ll) t2lk t2lv (make t2lr t2k t2v t2r)
        | _ => .empty  -- unreachable!() in the source
      else make (make t1 k v t2l) t2k t2v t2r
    | _ => .empty  -- unreachable!() in the source
  else if t1h > t2h + 2 then
    match t1 with
    | .node _ t1l t1k t1v t1r =>
      if t1r.height > t2h + 1 then
        match t1r with
        | .node _ t1rl t1rk t1rv t1rr =>
          make (make t1l t1k t1v t1rl) t1rk t1rv (make t1rr k v t2)
        | _ => .empty  -- unreachable!() in the source
      else make t1l t1k t1v (make t1r k v t2)
    | _ => .empty  -- unreachable!() in the source
  else make t1 k v t2

/-- `fn insert`: BST descent; note that on an equal key the source rebuilds
the node with the OLD value `v2`, not the new `v`. -/
def insert [LinearOrder K] (t : MapNode K V) (k : K) (v : V) : MapNode K V :=
  match t with
  | .node h l k2 v2 r =>
    if k < k2 then rebalance (insert l k v) k2 v2 r
    else if k = k2 then .node h l k2 v2 r
    else rebalance l k2 v2 (insert r k v)
  | .one k2 v2 =>
    if k < k2 then .node 2 .empty k v (.one k2 v2)
    else if k = k2 then .one k2 v2
    else .node 2 (.one k2 v2) k v .empty
  | .empty => .one k v

/-- `fn splice_out_successor`: leftmost entry of the subtree; `none` models
the `panic!("internal error")` on `Empty`. -/
def spliceOutSuccessor : MapNode K V → Option (K × V × MapNode K V)
  | .empty => none
  | .one k2 v2 => some (k2, v2, .empty)
  | .node _ l k2 v2 r =>
    match l with
    | .empty => some (k2, v2, r)
    | _ =>
      match spliceOutSuccessor l with
      | some (k3, v3, ll) => some (k3, v3, make ll k2 v2 r)
      | none => none

/-- `fn remove`: BST removal; the successor splice result is rebuilt with
`make` (not `rebalance`). -/
def remove [LinearOrder K] (t : MapNode K V) (k : K) : MapNode K V :=
  match t with
  | .empty => .empty
  | .one k2 v2 => if k = k2 then .empty else .one k2 v2
  | .node _ l k2 v2 r =>
    if k < k2 then rebalance (remove l k) k2 v2 r
    else if k = k2 then
      match l, r with
      | .empty, _ => r
      | _, .empty => l
      | _, _ =>
        match spliceOutSuccessor r with
        | some (sk, sv, rr) => make l sk sv rr
        | none => .empty  -- unreachable: r is non-empty here
    else rebalance l k2 v2 (remove r k)

/-- `fn find`: standard BST descent. -/
def find [LinearOrder K] : MapNode K V → K → Option V
  | .empty, _ => none
  | .one k2 v, k => if k = k2 then some v else none
  | .node _ l k2 v r, k =>
    if k < k2 then find l k
    else if k = k2 then some v
    else find r k

/-- `fn to_vec`: in-order key-value pairs. -/
def toVec : MapNode K V → List (K × V)
  | .empty => []
  | .one k v => [(k, v)]
  | .node _ l k v r => toVec l ++ (k, v) :: toVec r

/-- True (recomputed) height, used to state the cached-height invariant. -/
def trueHeight : MapNode K V → Nat
  | .empty => 0
  | .one _ _ => 1
  | .node _ l _ _ r => 1 + max (trueHeight l) (trueHeight r)

/-- Checker for the claimed invariant "cached `h` equals
`1 + max(left.h, right.h)`" at every node. -/
def heightCacheOK : MapNode K V → Bool
  | .empty => true
  | .one _ _ => true
  | .node h l _ _ r =>
    (h == 1 + max (trueHeight l) (trueHeight r)) && heightCacheOK l && heightCacheOK r

/-- Checker for the claimed invariant "the children's heights differ by at
most 2" at every node. -/
def balancedLe2 : MapNode K V → Bool
  | .empty => true
  | .one _ _ => true
  | .node _ l _ _ r =>
    Nat.ble (trueHeight l) (trueHeight r + 2) &&
      Nat.ble (trueHeight r) (trueHeight l + 2) && balancedLe2 l && balancedLe2 r

/-- `MapIter::next`: push `right`, then the entry as a `One`, then `left`,
skipping `Empty` children. -/
def pushNonEmpty (n : MapNode K V) (s : List (MapNode K V)) : List (MapNode K V) :=
  match n with
  | .empty => s
  | _ => n :: s

/-- Structural weight of a node, the termination measure of the iterator. -/
def weight : MapNode K V → Nat
  | .empty => 1
  | .one _ _ => 1
  | .node _ l _ _ r => weight l + weight r + 2

/-- Total weight of an iterator stack. -/
def stackWeight (s : List (MapNode K V)) : Nat := (s.map weight).sum

theorem stackWeight_cons (t : MapNode K V) (s : List (MapNode K V)) :
    stackWeight (t :: s) = weight t + stackWeight s := by
  simp [stackWeight]

theorem stackWeight_pushNonEmpty (t : MapNode K V) (s : List (MapNode K V)) :
    stackWeight (pushNonEmpty t s) ≤ weight t + stackWeight s := by
  cases t <;> simp [pushNonEmpty, stackWeight_cons, weight]

/-- The `MapIter` loop (`while let Some(node) = stack.pop()`), collecting
every yielded pair: the explicit-stack in-order traversal of `MapIter::next`. -/
def iterCollect : List (MapNode K V) → List (K × V)
  | [] => []
  | .empty :: rest => iterCollect rest
  | .one k v :: rest => (k, v) :: iterCollect rest
  | .node _ l k v r :: rest =>
    iterCollect (pushNonEmpty l (.one k v :: pushNonEmpty r rest))
termination_by s => stackWeight s
decreasing_by
  · simp [stackWeight_cons, weight]
  · simp [stackWeight_cons, weight]
  · have h1 := stackWeight_pushNonEmpty l (MapNode.one k v :: pushNonEmpty r rest)
    have h2 := stackWeight_pushNonEmpty r rest
    rw [stackWeight_cons] at h1
    rw [stackWeight_cons]
    simp only [weight] at h1 ⊢
    omega

theorem iterCollect_cons (t : MapNode K V) (rest : List (MapNode K V)) :
    iterCollect (t :: rest) = t.toVec ++ iterCollect rest := by
  induction t generalizing rest with
  | empty => simp [iterCollect, toVec]
  | one k v => simp [iterCollect, toVec]
  | node h l k v r ihl ihr =>
    have hl : ∀ s, iterCollect (pushNonEmpty l s) = l.toVec ++ iterCollect s := by
      intro s
      cases l with
      | empty => simp [pushNonEmpty, toVec]
      | one k' v' => exact ihl s
      | node h' l' k' v' r' => exact ihl s
    have hr : ∀ s, iterCollect (pushNonEmpty r s) = r.toVec ++ iterCollect s := by
      intro s
      cases r with
      | empty => simp [pushNonEmpty, toVec]
      | one k' v' => exact ihr s
      | node h' l' k' v' r' => exact ihr s
    rw [iterCollect, hl, iterCollect, hr, toVec]
    simp

end MapNode

/-- `Map<K, V>`: the wrapper caching `size`. -/
structure Map (K V : Type) where
  size : Nat
  n : MapNode K V
deriving DecidableEq, Repr

namespace Map

variable {K V : Type}

/-- `Map::empty`. -/
def empty : Map K V := ⟨0, .empty⟩

/-- `Map::insert`: note `size` is incremented unconditionally. -/
def insert [LinearOrder K] (m : Map K V) (k : K) (v : V) : Map K V :=
  ⟨m.size + 1, MapNode.insert m.n k v⟩

/-- `Map::remove`: size decremented only if `find` succeeds first. -/
def remove [LinearOrder K] (m : Map K V) (k : K) : Map K V :=
  let size := match MapNode.find m.n k with
    | some _ => m.size - 1
    | none => m.size
  ⟨size, MapNode.remove m.n k⟩

/-- `Map::find`. -/
def find [LinearOrder K] (m : Map K V) (k : K) : Option V := MapNode.find m.n k

/-- `Map::len`: the cached size. -/
def len (m : Map K V) : Nat := m.size

/-- `Map::to_vec`. -/
def toVec (m : Map K V) : List (K × V) := m.n.toVec

/-- `Map::iter`: the initial iterator stack (the root unless `Empty`). -/
def iterInit (m : Map K V) : List (MapNode K V) :=
  match m.n with
  | .empty => []
  | _ => [m.n]

/-- Collecting the iterator of `Map::iter` to the end. -/
def iterCollected (m : Map K V) : List (K × V) := MapNode.iterCollect (iterInit m)

end Map

/-- C1: the claim requires `insert(k, v)` followed by `find(k)` to return the
NEW value `v` also when `k` was present; the ordered `Map` keeps the OLD
value (`map.rs` line 119/127 rebuilds with `v2`), contradicting its own doc
comment "If the key already exists, its value is replaced". -/
theorem c1_map_insert_keeps_old_value :
    Map.find (Map.insert (Map.insert (Map.empty : Map Nat Nat) 1 10) 1 20) 1 =
        some 10 ∧
      (some 10 : Option Nat) ≠ some 20 := by
  decide

/-- C7 failing input: insert 12, 9, 3, 0, 2 then remove 9, mirrored from the
source `insert`/`remove`. -/
def t7 : MapNode Nat Nat :=
  MapNode.remove
    (MapNode.insert
      (MapNode.insert
        (MapNode.insert (MapNode.insert (MapNode.insert .empty 12 12) 9 9) 3 3)
        0 0)
      2 2)
    9

/-- C7: on the reachable tree `t7` every cached height is correct, but the
root's children heights differ by 3 (`remove` rebuilds the spliced node with
`make`, never rebalancing it), refuting the claimed AVL balance bound of 2. -/
theorem c7_balance_violated :
    MapNode.heightCacheOK t7 = true ∧ MapNode.balancedLe2 t7 = false ∧
      MapNode.trueHeight t7 =
        1 + max 3 (MapNode.trueHeight (MapNode.empty : MapNode Nat Nat)) := by
  decide

/-- C10: collecting the explicit-stack iterator of `Map::iter` yields exactly
`Map::to_vec` (the recursive in-order traversal), for every map. -/
theorem c10_iter_eq_to_vec (K V : Type) (m : Map K V) :
    Map.iterCollected m = Map.toVec m := by
  unfold Map.iterCollected Map.iterInit Map.toVec
  cases hn : m.n with
  | empty => simp [MapNode.iterCollect, MapNode.toVec]
  | one k v => rw [MapNode.iterCollect_cons]; simp [MapNode.iterCollect]
  | node h l k v r => rw [MapNode.iterCollect_cons]; simp [MapNode.iterCollect]



/-! ## set.rs -/

/-- `SetNode<K>`: `Empty`, `One(k)`, or `Node(h, l, k, r)` with cached
height `h`. -/
inductive SetNode (K : Type) where
  | empty : SetNode K
  | one (k : K) : SetNode K
  | node (h : Nat) (l : SetNode K) (k : K) (r : SetNode K) : SetNode K
deriving DecidableEq, Repr

namespace SetNode

variable {K : Type}

/-- `fn height` for sets. -/
def height : SetNode K → Nat
  | .empty => 0
  | .one _ => 1
  | .node h _ _ _ => h

/-- `fn make` for sets. -/
def make (l : SetNode K) (k : K) (r : SetNode K) : SetNode K :=
  match l, r with
  | .empty, .empty => .one k
  | _, _ => .node (1 + max l.height r.height) l k r

/-- `fn rebalance` for sets; `unreachable!()` arms modelled as `Empty`. -/
def rebalance (t1 : SetNode K) (k : K) (t2 : SetNode K) : SetNode K :=
  let t1h := t1.height
  let t2h := t2.height
  if t2h > t1h + 2 then
    match t2 with
    | .node _ t2l t2x t2r =>
      if t2l.height > t1h + 1 then
        match t2l with
        | .node _ t2ll t2lx t2lr => make (make t1 k t2ll) t2lx (make t2lr t2x t2r)
        | _ => .empty  -- unreachable!() in the source
      else make (make t1 k t2l) t2x t2r
    | _ => .empty  -- unreachable!() in the source
  else if t1h > t2h + 2 then
    match t1 with
    | .node _ t1l t1x t1r =>
      if t1r.height > t2h + 1 then
        match t1r with
        | .node _ t1rl t1rx t1rr => make (make t1l t1x t1rl) t1rx (make t1rr k t2)
        | _ => .empty  -- unreachable!() in the source
      else make t1l t1x (make t1r k t2)
    | _ => .empty  -- unreachable!() in the source
  else make t1 k t2

/-- `fn insert` for sets. -/
def insert [LinearOrder K] (t : SetNode K) (k : K) : SetNode K :=
  match t with
  | .node h l k2 r =>
    if k < k2 then rebalance (insert l k) k2 r
    else if k = k2 then .node h l k2 r
    else rebalance l k2 (insert r k)
  | .one k2 =>
    if k < k2 then .node 2 .empty k (.one k2)
    else if k = k2 then .one k2
    else .node 2 (.one k2) k .empty
  | .empty => .one k

/-- `fn splice_out_successor` for sets. -/
def spliceOutSuccessor : SetNode K → Option (K × SetNode K)
  | .empty => none
  | .one k2 => some (k2, .empty)
  | .node _ l k2 r =>
    match l with
    | .empty => some (k2, r)
    | _ =>
      match spliceOutSuccessor l with
      | some (x3, ll) => some (x3, make ll k2 r)
      | none => none

/-- `fn remove` for sets. -/
def remove [LinearOrder K] (t : SetNode K) (k : K) : SetNode K :=
  match t with
  | .empty => .empty
  | .one k2 => if k = k2 then .empty else .one k2
  | .node _ l k2 r =>
    if k < k2 then rebalance (remove l k) k2 r
    else if k = k2 then
      match l, r with
      | .empty, _ => r
      | _, .empty => l
      | _, _ =>
        match spliceOutSuccessor r with
        | some (sx, rr) => make l sx rr
        | none => .empty  -- unreachable: r is non-empty here
    else rebalance l k2 (remove r k)

/-- `fn find` for sets: returns the subtree rooted at the key. -/
def find [LinearOrder K] : SetNode K → K → Option (SetNode K)
  | .empty, _ => none
  | .one k2, k => if k = k2 then some (.one k2) else none
  | .node h l k2 r, k =>
    if k < k2 then find l k
    else if k = k2 then some (.node h l k2 r)
    else find r k

/-- `fn to_vec` for sets: in-order elements. -/
def toVec : SetNode K → List K
  | .empty => []
  | .one k => [k]
  | .node _ l k r => toVec l ++ k :: toVec r

end SetNode

/-- `Set<K>`: the wrapper caching `size`. -/
structure Set' (K : Type) where
  size : Nat
  n : SetNode K
deriving DecidableEq, Repr

namespace Set'

variable {K : Type}

/-- `Set::empty`. -/
def empty : Set' K := ⟨0, .empty⟩

/-- `Set::insert`: note `size` is incremented unconditionally. -/
def insert [LinearOrder K] (s : Set' K) (k : K) : Set' K :=
  ⟨s.size + 1, SetNode.insert s.n k⟩

/-- `Set::remove`: size decremented only if `find` succeeds first. -/
def remove [LinearOrder K] (s : Set' K) (k : K) : Set' K :=
  let size := match SetNode.find s.n k with
    | some _ => s.size - 1
    | none => s.size
  ⟨size, SetNode.remove s.n k⟩

/-- `Set::exist`. -/
def exist [LinearOrder K] (s : Set' K) (k : K) : Bool :=
  (SetNode.find s.n k).isSome

/-- `Set::len`: the cached size. -/
def len (s : Set' K) : Nat := s.size

/-- `Set::to_vec`. -/
def toVec (s : Set' K) : List K := s.n.toVec

end Set'

/-- C2: inserting an already-present key must keep `len` unchanged, but both
`Map::insert` and `Set::insert` increment the cached size unconditionally:
after inserting the key 1 twice, `len` is 2 while the tree holds a single
entry — contradicting `set.rs`'s own doc comment "If the element already
exists, the returned set is unchanged". -/
theorem c2_duplicate_insert_grows_len :
    (Set'.insert (Set'.insert (Set'.empty : Set' Nat) 1) 1).len = 2 ∧
    (Set'.insert (Set'.insert (Set'.empty : Set' Nat) 1) 1).toVec.length = 1 ∧
    (Map.insert (Map.insert (Map.empty : Map Nat Nat) 1 10) 1 20).len = 2 ∧
    (Map.insert (Map.insert (Map.empty : Map Nat Nat) 1 10) 1 20).toVec.length
      = 1 := by
  decide



/-! ## hashmap.rs -/

/-- Modelled from the spec: the trie constants `TRIE_BITS`, `TRIE_SIZE`,
`TRIE_MASK` are declared in the crate root, which is not among the provided
sources; the spec fixes `BITS = 5`, `FAN = 1 << BITS = 32`, `MASK = FAN - 1`. -/
def TRIE_BITS : Nat := 5

/-- Modelled from the spec: `FAN = 1 << BITS = 32`. -/
def TRIE_SIZE : Nat := 32

/-- Modelled from the spec: `MASK = FAN - 1 = 31`. -/
def TRIE_MASK : Nat := 31

/-- `usize::wrapping_shr` on 64-bit: the shift amount wraps modulo 64. -/
def wrappingShr (x l : Nat) : Nat := x >>> (l % 64)

/-- `HashMapNode<K, V>`: `Empty`, `One(hash, k, v)`, or
`Node(size, children[TRIE_SIZE])`. -/
inductive HashMapNode (K V : Type) where
  | empty : HashMapNode K V
  | one (h : Nat) (k : K) (v : V) : HashMapNode K V
  | node (size : Nat) (children : List (HashMapNode K V)) : HashMapNode K V
deriving Repr

namespace HashMapNode

variable {K V : Type}

/-- `matches!(n, Empty)`. -/
def isEmptyNode : HashMapNode K V → Bool
  | .empty => true
  | _ => false

/-- `fn new_empty_slice`: all `TRIE_SIZE` slots `Empty`. -/
def newEmptySlice : List (HashMapNode K V) := List.replicate TRIE_SIZE .empty

/-- `fn insert` with fuel.  The source recursion re-enters the same level
when two hashes collide at a slot, which does not terminate when the full
hashes are equal; the outer `none` means the fuel ran out (the source would
still be recursing), `some r` is the source's return value `r`
(`None` = key already present, `Some(n)` = new subtree). -/
def insertF [DecidableEq K] (hash : K → Nat) :
    Nat → HashMapNode K V → Nat → K → V → Option (Option (HashMapNode K V))
  | 0, _, _, _, _ => none
  | fuel + 1, h, l, k, v =>
    let kh := hash k
    let idx := wrappingShr kh l &&& TRIE_MASK
    match h with
    | .empty => some (some (.one kh k v))
    | .one hh k2 v2 =>
      if kh = hh ∧ k = k2 then some none
      else
        let slice := (newEmptySlice (K := K) (V := V)).set idx (.one kh k v)
        let idx2 := wrappingShr hh l &&& TRIE_MASK
        if idx2 ≠ idx then
          some (some (.node 2 (slice.set idx2 (.one hh k2 v2))))
        else
          let n := HashMapNode.node 1 slice
          match insertF hash fuel n l k2 v2 with
          | none => none
          | some (some n2) => some (some n2)
          | some none => some (some n)
    | .node size slice =>
      match insertF hash fuel (slice.getD idx .empty) (l + TRIE_BITS) k v with
      | none => none
      | some none => some none
      | some (some n) => some (some (.node (size + 1) (slice.set idx n)))

/-- `fn remove` with fuel (`none` = fuel ran out; `some r` = the source's
return, `None` meaning the key was absent). -/
def removeF [DecidableEq K] (hash : K → Nat) :
    Nat → HashMapNode K V → Nat → K → Option (Option (HashMapNode K V))
  | 0, _, _, _ => none
  | fuel + 1, h, l, k =>
    let kh := hash k
    let idx := wrappingShr kh l &&& TRIE_MASK
    match h with
    | .empty => some none
    | .one hh k2 _ =>
      if kh = hh ∧ k = k2 then some (some .empty)
      else some none
    | .node size slice =>
      match removeF hash fuel (slice.getD idx .empty) (l + TRIE_BITS) k with
      | none => none
      | some none => some none
      | some (some n) =>
        if isEmptyNode n && size == 1 then some (some .empty)
        else
          let newSize := if isEmptyNode n then size - 1 else size
          some (some (.node newSize (slice.set idx n)))

/-- `fn exist` with fuel. -/
def existF [DecidableEq K] (hash : K → Nat) :
    Nat → HashMapNode K V → Nat → K → Option Bool
  | 0, _, _, _ => none
  | fuel + 1, h, l, k =>
    let kh := hash k
    let idx := wrappingShr kh l &&& TRIE_MASK
    match h with
    | .empty => some false
    | .one hh k2 _ => some (decide (kh = hh ∧ k = k2))
    | .node _ slice => existF hash fuel (slice.getD idx .empty) (l + TRIE_BITS) k

/-- The number of `Singleton` (`One`) descendants, the quantity the claim
says every `Branch` count equals; fuelled for the nested recursion. -/
def singletonCountF : Nat → HashMapNode K V → Nat
  | 0, _ => 0
  | _, .empty => 0
  | _, .one _ _ _ => 1
  | fuel + 1, .node _ children => (children.map (singletonCountF fuel)).sum

/-- The stored count of a `Branch` root (`none` for the other constructors). -/
def rootCount : HashMapNode K V → Option Nat
  | .node size _ => some size
  | _ => none

/-- Forcing helper for chaining fuelled results in concrete computations. -/
def forceNode : Option (Option (HashMapNode K V)) → HashMapNode K V
  | some (some t) => t
  | _ => .empty

end HashMapNode

/-- `HashMap<K, V>`: the wrapper caching `count`. -/
structure HashMap (K V : Type) where
  n : HashMapNode K V
  count : Nat
deriving Repr

namespace HashMap

variable {K V : Type}

/-- `HashMap::empty`. -/
def emptyHM : HashMap K V := ⟨.empty, 0⟩

/-- `HashMap::remove` with fuel. -/
def removeHM [DecidableEq K] (hash : K → Nat) (fuel : Nat) (m : HashMap K V)
    (k : K) : Option (HashMap K V) :=
  match HashMapNode.removeF hash fuel m.n 0 k with
  | none => none
  | some (some n) => some ⟨n, m.count - 1⟩
  | some none => some ⟨m.n, m.count⟩

/-- `HashMap::insert` with fuel: on a `None` from the node insert (key
already present) it removes the key and re-inserts, keeping the count. -/
def insertHM [DecidableEq K] (hash : K → Nat) (fuel : Nat) (m : HashMap K V)
    (k : K) (v : V) : Option (HashMap K V) :=
  match HashMapNode.insertF hash fuel m.n 0 k v with
  | none => none
  | some (some n) => some ⟨n, m.count + 1⟩
  | some none =>
    match removeHM hash fuel m k with
    | none => none
    | some m' =>
      match HashMapNode.insertF hash fuel m'.n 0 k v with
      | none => none
      | some (some n) => some ⟨n, m.count⟩
      | some none => none  -- the .unwrap() panic

end HashMap



theorem getD_set_of_lt {α : Type} (l : List α) (i : Nat) (x d : α)
    (h : i < l.length) : (l.set i x).getD i d = x := by
  rw [List.getD_eq_getElem?_getD, List.getElem?_set_self]
  · simp
  · omega

theorem trieIdx_lt_32 (x l : Nat) : wrappingShr x l &&& TRIE_MASK < 32 :=
  Nat.lt_succ_of_le (Nat.and_le_right)

/-- A full-hash collision makes the node-level insert re-enter the same
level forever: for EVERY fuel the computation is still running.  Stated for
both shapes the cycle passes through (`One` holding the first key, and the
freshly built one-child `Branch`). -/
theorem insertF_collision_diverges {K V : Type} [DecidableEq K] (hash : K → Nat)
    (fuel : Nat) :
    (∀ (l : Nat) (a b : K) (va vb : V), a ≠ b → hash a = hash b →
      HashMapNode.insertF hash fuel (.one (hash a) a va) l b vb = none) ∧
    (∀ (l : Nat) (a b : K) (va vb : V), a ≠ b → hash a = hash b →
      HashMapNode.insertF hash fuel
        (.node 1 ((HashMapNode.newEmptySlice).set
          (wrappingShr (hash a) l &&& TRIE_MASK) (.one (hash a) a va)))
        l b vb = none) := by
  induction fuel with
  | zero => exact ⟨fun _ _ _ _ _ _ _ => rfl, fun _ _ _ _ _ _ _ => rfl⟩
  | succ fuel ih =>
    obtain ⟨ihA, ihB⟩ := ih
    constructor
    · intro l a b va vb hab hh
      have hcond : ¬(hash b = hash a ∧ b = a) := fun h => hab h.2.symm
      have hrec := ihB l b a vb va (Ne.symm hab) hh.symm
      rw [HashMapNode.insertF]
      simp only [if_neg hcond, hh, ne_eq, not_true_eq_false, if_false, hrec]
      simp [Ne.symm hab]
    · intro l a b va vb hab hh
      have hslot :
          ((HashMapNode.newEmptySlice (K := K) (V := V)).set
              (wrappingShr (hash a) l &&& TRIE_MASK)
              (.one (hash a) a va)).getD
            (wrappingShr (hash b) l &&& TRIE_MASK) .empty
            = .one (hash a) a va := by
        rw [← hh]
        exact getD_set_of_lt _ _ _ _
          (by simpa [HashMapNode.newEmptySlice, TRIE_SIZE] using
            trieIdx_lt_32 (hash a) l)
      have hrec := ihA (l + TRIE_BITS) a b va vb hab hh
      rw [HashMapNode.insertF]
      simp only [hslot, hrec]

/-- C3: the claim requires inserting two distinct keys with the same full
64-bit hash to terminate with both present; instead `HashMapNode::insert`
re-enters the collision case at the same slot forever.  With keys `(0,0)`
and `(0,1)` hashed by the first component: the first wrapper insert
succeeds, and the second returns "still running" at EVERY fuel. -/
theorem c3_hash_collision_insert_diverges :
    HashMap.insertHM Prod.fst 1 (HashMap.emptyHM : HashMap (Nat × Nat) Nat)
        (0, 0) 10 = some ⟨.one 0 (0, 0) 10, 1⟩ ∧
    ∀ fuel,
      HashMap.insertHM Prod.fst fuel
        (⟨.one 0 (0, 0) 10, 1⟩ : HashMap (Nat × Nat) Nat) (0, 1) 20 = none := by
  constructor
  · rfl
  · intro fuel
    have h := (insertF_collision_diverges (K := Nat × Nat) (V := Nat)
      Prod.fst fuel).1 0 (0, 0) (0, 1) 10 20 (by decide) rfl
    rw [HashMap.insertHM]
    simp only at h ⊢
    rw [h]

/-- C4 trie after inserting `(0,0)` and `(32,0)` (equal slot 0 at the root,
split at depth 1). -/
def t4b : HashMapNode (Nat × Nat) Nat :=
  HashMapNode.forceNode (HashMapNode.insertF Prod.fst 64
    (HashMapNode.forceNode
      (HashMapNode.insertF Prod.fst 64 .empty 0 (0, 0) 1))
    0 (32, 0) 2)

/-- C4 trie after then removing `(0,0)`. -/
def t4c : HashMapNode (Nat × Nat) Nat :=
  HashMapNode.forceNode (HashMapNode.removeF Prod.fst 64 t4b 0 (0, 0))

/-- C4: before the removal the root `Branch` count (2) equals the number of
`Singleton` descendants (2); removing the present key `(0,0)` leaves the
root `Branch` in place with count still 2 while only 1 `Singleton` remains —
`remove` decrements a branch count only when the immediate child slot
becomes `Empty`, so the claimed invariant (and the `prev − 1` rule) fails. -/
theorem c4_branch_count_not_singleton_count :
    HashMapNode.rootCount t4b = some 2 ∧
    HashMapNode.singletonCountF 64 t4b = 2 ∧
    HashMapNode.rootCount t4c = some 2 ∧
    HashMapNode.singletonCountF 64 t4c = 1 := by
  decide



/-! ## tree.rs (path zipper) -/

/-- Rose-tree node: `data` plus a children set (a `HashSet<Node>` in the
source, keyed on handle address; modelled as a list with an explicit
equality predicate `beq` standing for the source's `Eq` capability, which
for `Node` is pointer equality — structural equality coincides with it on
inputs whose node values are pairwise distinct). -/
inductive RNode (D : Type) where
  | mk (data : D) (children : List (RNode D)) : RNode D

namespace RNode

variable {D : Type}

/-- `Node::data`. -/
def data : RNode D → D
  | .mk d _ => d

/-- The node's children set (as the underlying list). -/
def children : RNode D → List (RNode D)
  | .mk _ cs => cs

/-- The data of a node's children, for stating observations. -/
def childData (n : RNode D) : List D := n.children.map data

/-- Structural node equality at a fuel (stands for the source's `Eq`
capability on `Node`, which is handle identity). -/
def rnBeqF [DecidableEq D] : Nat → RNode D → RNode D → Bool
  | 0, _, _ => false
  | fuel + 1, .mk d1 cs1, .mk d2 cs2 =>
    d1 == d2 && cs1.length == cs2.length &&
      (List.zip cs1 cs2).all fun pc => rnBeqF fuel pc.1 pc.2

end RNode

/-- `HashSet::exist` on the children set. -/
def hsExist {D : Type} (beq : RNode D → RNode D → Bool)
    (s : List (RNode D)) (x : RNode D) : Bool :=
  s.any fun y => beq y x

/-- `HashSet::insert` on the children set: unchanged on a duplicate. -/
def hsInsert {D : Type} (beq : RNode D → RNode D → Bool)
    (s : List (RNode D)) (x : RNode D) : List (RNode D) :=
  if hsExist beq s x then s else x :: s

/-- `HashSet::remove` on the children set: drop the matching entry. -/
def hsRemove {D : Type} (beq : RNode D → RNode D → Bool) :
    List (RNode D) → RNode D → List (RNode D)
  | [], _ => []
  | y :: ys, x => if beq y x then ys else y :: hsRemove beq ys x

/-- The `assert!` at the top of `add_node`: each consecutive pair of the
path is a parent/child pair. -/
def pathValid {D : Type} (beq : RNode D → RNode D → Bool)
    (p : List (RNode D)) : Bool :=
  (p.zip (p.drop 1)).all fun pc => hsExist beq pc.1.children pc.2

/-- The `add_node` spine-rebuild loop.  Arguments: the original path from
focus to root (`p.reverse`), the original node replaced in the previous
iteration (`none` in the first iteration, matching the `i != 0` guard), and
the new path built so far, newest node first. -/
def addNodeGo {D : Type} (beq : RNode D → RNode D → Bool) :
    List (RNode D) → Option (RNode D) → List (RNode D) → List (RNode D)
  | [], _, acc => acc
  | parent :: rest, prevOrig, acc =>
    let newest := acc.headD parent
    let children := hsInsert beq parent.children newest
    let children := match prevOrig with
      | none => children
      | some po => hsRemove beq children po
    addNodeGo beq rest (some parent) (RNode.mk parent.data children :: acc)

/-- `PathPriv::add_node`: a new leaf child of the focus, spine rebuilt;
`none` models the `assert!` panics. -/
def addNode {D : Type} (beq : RNode D → RNode D → Bool)
    (p : List (RNode D)) (d : D) : Option (List (RNode D)) :=
  if 1 ≤ p.length ∧ pathValid beq p = true then
    some (addNodeGo beq p.reverse none [RNode.mk d []])
  else none

/-- The `remove_node` spine-rebuild loop.  Arguments: the original parents
from the focus's parent up to the root, the original child removed in this
iteration, and the new path so far, newest first (empty in the first
iteration, matching the `i != 0` guard). -/
def removeNodeGo {D : Type} (beq : RNode D → RNode D → Bool) :
    List (RNode D) → RNode D → List (RNode D) → List (RNode D)
  | [], _, acc => acc
  | parent :: rest, removedChild, acc =>
    let children := hsRemove beq parent.children removedChild
    let children := match acc with
      | [] => children
      | newest :: _ => hsInsert beq children newest
    removeNodeGo beq rest parent (RNode.mk parent.data children :: acc)

/-- `PathPriv::remove_node`: drop the focus from its parent, spine rebuilt;
`none` models the `assert!(node_vec.len() > 1)` panic on a root path. -/
def removeNode {D : Type} (beq : RNode D → RNode D → Bool)
    (p : List (RNode D)) : Option (List (RNode D)) :=
  if 1 < p.length then
    match p.reverse with
    | focus :: parents => some (removeNodeGo beq parents focus [])
    | [] => none
  else none

/-- `PathPriv::set_data`: `remove_node` followed by `add_node`. -/
def setData {D : Type} (beq : RNode D → RNode D → Bool)
    (p : List (RNode D)) (d : D) : Option (List (RNode D)) :=
  (removeNode beq p).bind fun q => addNode beq q d

/-- The C5 tree: root `0` with child `1`, which has grandchild `2`. -/
def g5 : RNode Nat := .mk 2 []

/-- The C5 focused node (data 1, one child `g5`). -/
def c5 : RNode Nat := .mk 1 [g5]

/-- The C5 root. -/
def r5 : RNode Nat := .mk 0 [c5]

/-- The C5 path, root to focus. -/
def p5 : List (RNode Nat) := [r5, c5]

/-- C5: `set_data` is `remove_node` + `add_node`, so (a) the focused node's
children set is NOT preserved: on the valid path `[r5, c5]` (focus has one
child of data 2) the result path has datas `[0, 5]` but children data
`[[5], []]` — the focus returns with an empty children set and the
grandchild subtree is dropped from the whole tree; and (b) on a path of
length 1 (the root) it panics (`assert!(len > 1)`) instead of returning a
tree with the data replaced. -/
theorem c5_set_data_drops_children :
    (setData (RNode.rnBeqF 100) p5 5).map (fun q => q.map RNode.data) =
        some [0, 5] ∧
    (setData (RNode.rnBeqF 100) p5 5).map (fun q => q.map RNode.childData) =
        some [[5], []] ∧
    RNode.childData c5 = [2] ∧
    (setData (RNode.rnBeqF 100) [RNode.mk 7 []] 5).isNone = true := by
  decide


end PFDS
